import Mathlib

/-!
# Verification of the Japanese study app's segmentation, gloss and popup logic

This file gives a shallow embedding, in Lean 4, of the algorithmic core of the
app's single script (class `JapaneseStudyApp`): the word tokenizer and
annotator (`makeWordsClickable`), the memoized definition resolver
(`getWordDefinition` over the `fallbackDefinitions` map), and the popup
placement computation (`positionPopup`).  Text is modelled as `List Char`
(JavaScript strings of BMP code points), the definition cache as an
association list, the asynchronous lookup as a function returning
`Except String Definition` (an `error` value standing for any rejection of
the fetch/parse pipeline: network error, non-ok HTTP status, or a malformed
response), and pixel coordinates as rationals (the script only ever divides
by 2, which is exact, so `ℚ` is a faithful model of the doubles involved).
-/

/-! ## Definition resolver and cache

`Definition` mirrors the `{ reading, meaning }` objects the script stores in
`this.fallbackDefinitions`.  `getWordDefinition` mirrors the method of the
same name: check the cache, otherwise run the lookup; on success store and
return the parsed content, on any failure return the sentinel
`{ reading: "?", meaning: "Definition unavailable" }` (the `catch` branch).
The third component of the result counts how many times the lookup function
was invoked during the call (0 or 1), so that memoization is expressible.
-/

structure Definition where
  reading : String
  meaning : String
deriving DecidableEq

def sentinelDef : Definition := { reading := "?", meaning := "Definition unavailable" }

def lookupAssoc : List (String × Definition) → String → Option Definition
  | [], _ => none
  | (k, v) :: rest, w => if k = w then some v else lookupAssoc rest w

def getWordDefinition (cache : List (String × Definition)) (word : String)
    (lookupFn : String → Except String Definition) :
    Definition × List (String × Definition) × Nat :=
  match lookupAssoc cache word with
  | some d => (d, cache, 0)
  | none =>
    match lookupFn word with
    | Except.ok d => (d, (word, d) :: cache, 1)
    | Except.error _ => (sentinelDef, cache, 1)

/-! ## Popup placement

`positionPopup` mirrors the arithmetic inside the `requestAnimationFrame`
callback of the script's method of the same name: the caller has already
normalized the trigger point into viewport coordinates (`touchX`, `touchY`);
the function returns the `(top, left)` pair assigned to the popup's style.
The fixed margin in the script is the literal `20`.
-/

def positionPopup (touchX touchY popupWidth popupHeight viewportWidth viewportHeight : ℚ) :
    ℚ × ℚ :=
  let left0 := touchX - popupWidth / 2
  let top0 := touchY - popupHeight - 20
  let left1 := if left0 + popupWidth > viewportWidth - 20 then viewportWidth - popupWidth - 20 else left0
  let left2 := if left1 < 20 then 20 else left1
  let top1 := if top0 < 20 then touchY + 20 else top0
  let top2 :=
    if top1 + popupHeight > viewportHeight - 20 then
      max 20 ((viewportHeight - popupHeight) / 2)
    else top1
  (top2, left2)

/-- The spec's description of the placement engine, written from its words: a
deterministic three-tier fallback above → below → centered, with a horizontal
clamp that first pins the right edge to `viewport − margin` and then pins the
left edge to the margin. -/
def placeSpec (x y w h vw vh : ℚ) : ℚ × ℚ :=
  let leftCentered := x - w / 2
  let leftClamped :=
    if leftCentered + w > vw - 20 then
      (if vw - w - 20 < 20 then 20 else vw - w - 20)
    else if leftCentered < 20 then 20 else leftCentered
  let topAbove := y - h - 20
  let topAfterFlip := if topAbove < 20 then y + 20 else topAbove
  let topFinal :=
    if topAfterFlip + h > vh - 20 then max 20 ((vh - h) / 2) else topAfterFlip
  (topFinal, leftClamped)

/-! ## Tokenizer and annotator

`makeWordsClickable` first scans the text with the global regex
`([一-龯ひ-ゖヰ-ヷァ-ヺー]{1,})`, collecting every maximal run of characters
of that class into a `Set` (insertion order, i.e. first occurrence order),
skipping runs equal to an entry of the `particles` array; it then sorts the
collected words by length descending (JavaScript's sort is stable), and for
each word performs the global replacement
`(?!<[^>]*>)(word)(?![^<]*>)` ↦ the clickable `<span>` markup; finally the
newlines are turned into `<br>`.  The regex's character class is embedded in
`meaningfulWordChar`; note that its hiragana range starts at ひ (U+3072),
not at the beginning of the hiragana block.  `escapeRegex` is the identity
on every character of the class (none is a regex metacharacter), so the
replacement pattern matches the word literally, as embedded in
`replaceWord`.
-/

/-- The character class `[一-龯ひ-ゖヰ-ヷァ-ヺー]` of `meaningfulWordRegex`:
CJK U+4E00–U+9FAF, hiragana U+3072–U+3096, katakana U+30F0–U+30F7 and
U+30A1–U+30FA, and the prolonged sound mark U+30FC. -/
def meaningfulWordChar (c : Char) : Bool :=
  (0x4E00 ≤ c.toNat && c.toNat ≤ 0x9FAF) ||
  (0x3072 ≤ c.toNat && c.toNat ≤ 0x3096) ||
  (0x30F0 ≤ c.toNat && c.toNat ≤ 0x30F7) ||
  (0x30A1 ≤ c.toNat && c.toNat ≤ 0x30FA) ||
  (c.toNat == 0x30FC)

/-- The `particles` array of `makeWordsClickable`, in source order. -/
def particles : List (List Char) :=
  ["は".toList, "が".toList, "を".toList, "に".toList, "で".toList, "と".toList,
   "も".toList, "の".toList, "から".toList, "まで".toList, "より".toList, "へ".toList,
   "や".toList, "か".toList, "よ".toList, "ね".toList, "わ".toList, "さ".toList,
   "ぞ".toList, "ぜ".toList, "な".toList, "だ".toList, "である".toList, "です".toList,
   "ます".toList, "だっ".toList, "であっ".toList, "という".toList, "といった".toList]

/-- Scanner for the maximal runs of `meaningfulWordChar` characters, i.e.
the successive matches of the global regex `([一-龯ひ-ゖヰ-ヷァ-ヺー]{1,})`.
`cur` is the run currently being read, in reverse. -/
def extractRunsAux : List Char → List Char → List (List Char)
  | cur, [] => if cur.isEmpty then [] else [cur.reverse]
  | cur, c :: cs =>
    if meaningfulWordChar c then extractRunsAux (c :: cur) cs
    else if cur.isEmpty then extractRunsAux [] cs
    else cur.reverse :: extractRunsAux [] cs

def extractRuns (text : List Char) : List (List Char) :=
  extractRunsAux [] text

/-- The words collected into `wordsToMakeClickable`, before deduplication:
each regex match that is not a particle and has length at least 1. -/
def tokenCandidates (text : List Char) : List (List Char) :=
  (extractRuns text).filter (fun r => !(decide (r ∈ particles)) && decide (1 ≤ r.length))

/-- First-occurrence deduplication, as performed by inserting into a
JavaScript `Set`. -/
def dedupFirst (seen : List (List Char)) : List (List Char) → List (List Char)
  | [] => []
  | x :: xs => if decide (x ∈ seen) then dedupFirst seen xs else x :: dedupFirst (x :: seen) xs

/-- Stable insertion for the length-descending sort: a word is placed before
the first strictly shorter entry, so equal lengths keep their original
relative order, as JavaScript's stable `sort` with comparator
`b.length - a.length` does. -/
def insertLenDesc (w : List Char) : List (List Char) → List (List Char)
  | [] => [w]
  | x :: xs => if x.length ≤ w.length then w :: x :: xs else x :: insertLenDesc w xs

def sortLenDesc : List (List Char) → List (List Char)
  | [] => []
  | x :: xs => insertLenDesc x (sortLenDesc xs)

/-- `matchesAt pat l` holds when `pat` occurs at the start of `l`. -/
def matchesAt : List Char → List Char → Bool
  | [], _ => true
  | _ :: _, [] => false
  | a :: as, b :: bs => a == b && matchesAt as bs

/-- The leading negative lookahead `(?!<[^>]*>)`: at the match position, the
text must not begin with a complete tag, i.e. a `<` later followed by a `>`
with no intervening `>`.  `<[^>]*>` matches at the position exactly when the
first character is `<` and some `>` follows it. -/
def startsWithTag : List Char → Bool
  | [] => false
  | c :: cs => c == '<' && cs.contains '>'

/-- The trailing negative lookahead `(?![^<]*>)`: after the match, the text
must not reach a `>` before the next `<`.  `[^<]*>` matches exactly when,
scanning forward, a `>` appears before any `<`. -/
def gtBeforeLt : List Char → Bool
  | [] => false
  | c :: cs => if c == '>' then true else if c == '<' then false else gtBeforeLt cs

/-- One word's global replacement pass: scan left to right, and wherever the
word occurs with both lookaheads satisfied, emit `rep` and resume after the
matched occurrence (replacements are not rescanned); otherwise copy one
character.  The fuel argument starts at the text's length and decreases by
one per step while the text loses at least one character, so the
fuel-exhausted branch is never reached from `replaceWord`. -/
def replaceGo (w rep : List Char) : Nat → List Char → List Char
  | _, [] => []
  | 0, l => l
  | Nat.succ n, c :: cs =>
    if !(w.isEmpty) && matchesAt w (c :: cs) && !(startsWithTag (c :: cs))
        && !(gtBeforeLt (List.drop w.length (c :: cs))) then
      rep ++ replaceGo w rep n (List.drop (w.length - 1) cs)
    else
      c :: replaceGo w rep n cs

def replaceWord (w rep text : List Char) : List Char :=
  replaceGo w rep text.length text

/-- The replacement markup
`<span class="clickable-word" data-word="w" data-source="dynamic">w</span>`. -/
def spanWrap (w : List Char) : List Char :=
  ("<span class=\"clickable-word\" data-word=\"").toList ++ w
    ++ ("\" data-source=\"dynamic\">").toList ++ w ++ ("</span>").toList

/-- The final `replace(/\n/g, "<br>")`. -/
def newlineToBr : List Char → List Char
  | [] => []
  | c :: cs => if c == '\n' then ("<br>").toList ++ newlineToBr cs else c :: newlineToBr cs

/-- The annotation stage of `makeWordsClickable` (dedup into a set, sort by
length descending, one replacement pass per word, then newline conversion),
parameterized by the candidate word list. -/
def annotateWords (ws : List (List Char)) (text : List Char) : List Char :=
  newlineToBr ((sortLenDesc (dedupFirst [] ws)).foldl
    (fun acc w => replaceWord w (spanWrap w) acc) text)

def makeWordsClickable (text : List Char) : List Char :=
  annotateWords (tokenCandidates text) text

/-! ## Observers on the produced markup -/

/-- The opening-tag prefix up to the `data-word` attribute value. -/
def attrMark : List Char :=
  ("<span class=\"clickable-word\" data-word=\"").toList

def takeTillQuote : List Char → List Char
  | [] => []
  | c :: cs => if c == '\x22' then [] else c :: takeTillQuote cs

/-- The `data-word` attribute values of all interactive spans occurring in a
markup string, in left-to-right order of the opening tags. -/
def spanWords : List Char → List (List Char)
  | [] => []
  | c :: cs =>
    if matchesAt attrMark (c :: cs) then
      takeTillQuote (List.drop attrMark.length (c :: cs)) :: spanWords cs
    else spanWords cs

/-- The number of interactive opening tags in a markup string. -/
def countTags : List Char → Nat
  | [] => 0
  | c :: cs => (if matchesAt attrMark (c :: cs) then 1 else 0) + countTags cs

/-! ## Theorems about the resolver -/

/-- Claim C6: if the definition cache already holds an entry for the word, the
resolver returns that cached value with zero lookup invocations; and after a
first resolve that missed the cache and whose lookup succeeded, a second
resolve for the same word (under any lookup function) returns the cached
value with zero new lookup invocations. -/
theorem getWordDefinition_memoizes (cache : List (String × Definition)) (word : String)
    (lookupFn lookupFn2 : String → Except String Definition) (d : Definition) :
    (lookupAssoc cache word = some d →
      getWordDefinition cache word lookupFn = (d, cache, 0))
    ∧ (lookupAssoc cache word = none → lookupFn word = Except.ok d →
      getWordDefinition (getWordDefinition cache word lookupFn).2.1 word lookupFn2
        = (d, (getWordDefinition cache word lookupFn).2.1, 0)) := by
  constructor
  · intro h
    unfold getWordDefinition
    rw [h]
  · intro h1 h2
    unfold getWordDefinition
    rw [h1, h2]
    simp [lookupAssoc]

theorem getWordDefinition_memoizes_witness :
    (lookupAssoc [] "猫" = none
      ∧ (fun _ : String => (Except.ok ⟨"ねこ", "cat"⟩ : Except String Definition)) "猫"
          = Except.ok ⟨"ねこ", "cat"⟩)
    ∧ getWordDefinition
        (getWordDefinition [] "猫" (fun _ => Except.ok ⟨"ねこ", "cat"⟩)).2.1 "猫"
        (fun _ => Except.error "late failure")
      = (⟨"ねこ", "cat"⟩,
         (getWordDefinition [] "猫" (fun _ => Except.ok ⟨"ねこ", "cat"⟩)).2.1, 0) :=
  ⟨⟨rfl, rfl⟩,
   (getWordDefinition_memoizes [] "猫" (fun _ => Except.ok ⟨"ねこ", "cat"⟩)
      (fun _ => Except.error "late failure") ⟨"ねこ", "cat"⟩).2 rfl rfl⟩

/-- Claim C2 (amended): on a cache miss whose lookup fails, the resolver does not
raise (it returns a value of type `Definition`), that value is the
"unavailable" sentinel, exactly one lookup was invoked, and the cache is
returned unchanged — the sentinel is NOT stored under the word's key. -/
theorem getWordDefinition_failure_returns_sentinel_uncached
    (cache : List (String × Definition)) (word : String)
    (lookupFn : String → Except String Definition) (e : String)
    (hmiss : lookupAssoc cache word = none) (hfail : lookupFn word = Except.error e) :
    getWordDefinition cache word lookupFn = (sentinelDef, cache, 1) := by
  unfold getWordDefinition
  rw [hmiss, hfail]

theorem getWordDefinition_failure_uncached_witness :
    (lookupAssoc [] "日本" = none
      ∧ (fun _ : String => (Except.error "HTTP 500" : Except String Definition)) "日本"
          = Except.error "HTTP 500")
    ∧ getWordDefinition [] "日本" (fun _ => Except.error "HTTP 500")
        = (sentinelDef, [], 1) :=
  ⟨⟨rfl, rfl⟩,
   getWordDefinition_failure_returns_sentinel_uncached [] "日本"
     (fun _ => Except.error "HTTP 500") "HTTP 500" rfl rfl⟩

/-- Claim C2 (counterexample to the claim as stated): after a failing lookup on an
empty cache, the cache does NOT hold the sentinel under the word's key — the
claim that the sentinel "is stored in the definition cache" is false. -/
theorem getWordDefinition_failure_not_stored :
    ¬ (lookupAssoc
        (getWordDefinition [] "猫" (fun _ => Except.error "network error")).2.1 "猫"
      = some sentinelDef) := by
  decide

/-- Claim C8: a definition lookup failure never surfaces as an exception: on a
cache miss whose lookup fails, the caller still receives a usable
`Definition` value, namely the "unavailable" sentinel that the popup then
renders. -/
theorem getWordDefinition_failure_usable
    (cache : List (String × Definition)) (word : String)
    (lookupFn : String → Except String Definition) (e : String)
    (hmiss : lookupAssoc cache word = none) (hfail : lookupFn word = Except.error e) :
    (getWordDefinition cache word lookupFn).1 = sentinelDef := by
  unfold getWordDefinition
  rw [hmiss, hfail]

theorem getWordDefinition_failure_usable_witness :
    (lookupAssoc [] "東京" = none
      ∧ (fun _ : String => (Except.error "malformed response" : Except String Definition)) "東京"
          = Except.error "malformed response")
    ∧ (getWordDefinition [] "東京" (fun _ => Except.error "malformed response")).1
        = sentinelDef :=
  ⟨⟨rfl, rfl⟩,
   getWordDefinition_failure_usable [] "東京"
     (fun _ => Except.error "malformed response") "malformed response" rfl rfl⟩

/-! ## Theorems about popup placement -/

/-- Claim C7: the placement computation is the deterministic three-tier fallback
above → below → centered with the described horizontal clamps (it agrees with
the spec-worded `placeSpec` on every input), and on the spec's concrete
instance — viewport 400×800, box 300×100, trigger (390, 50) — the computed
box satisfies `left + width ≤ 400 − margin` and `top ≥ margin`. -/
theorem positionPopup_three_tier :
    (∀ x y w h vw vh : ℚ, positionPopup x y w h vw vh = placeSpec x y w h vw vh)
    ∧ ((positionPopup 390 50 300 100 400 800).2 + 300 ≤ 400 - 20
        ∧ 20 ≤ (positionPopup 390 50 300 100 400 800).1) := by
  constructor
  · intro x y w h vw vh
    simp only [positionPopup, placeSpec]
    split_ifs <;> rfl
  · constructor <;> norm_num [positionPopup]

/-- Claim C9: for every trigger point with non-negative y, every content size and
every viewport, the computed position keeps the popup's top-left corner at
least the 20-pixel margin away from the viewport's top and left edges. -/
theorem positionPopup_margin_bounds (x y w h vw vh : ℚ) (hy : 0 ≤ y) :
    20 ≤ (positionPopup x y w h vw vh).2 ∧ 20 ≤ (positionPopup x y w h vw vh).1 := by
  simp only [positionPopup]
  split_ifs <;>
    constructor <;>
    first
      | linarith
      | exact le_max_left _ _

theorem positionPopup_margin_bounds_witness :
    (0 : ℚ) ≤ 5
    ∧ (20 ≤ (positionPopup 0 5 1000 1000 10 10).2
        ∧ 20 ≤ (positionPopup 0 5 1000 1000 10 10).1) :=
  ⟨by norm_num, positionPopup_margin_bounds 0 5 1000 1000 10 10 (by norm_num)⟩

/-! ## Theorems about the tokenizer and annotator -/

theorem extractRunsAux_mem (cs : List Char) : ∀ cur r, r ∈ extractRunsAux cur cs →
    r ≠ [] ∧ ∃ s t, cur.reverse ++ cs = s ++ r ++ t := by
  induction cs with
  | nil =>
    intro cur r h
    cases cur with
    | nil => simp [extractRunsAux] at h
    | cons a as =>
      rw [show extractRunsAux (a :: as) [] = [(a :: as).reverse] from rfl] at h
      rcases List.mem_singleton.mp h with rfl
      exact ⟨by simp, [], [], by simp⟩
  | cons c cs ih =>
    intro cur r h
    simp only [extractRunsAux] at h
    split at h
    case isTrue hm =>
      obtain ⟨hne, s, t, hd⟩ := ih (c :: cur) r h
      refine ⟨hne, s, t, ?_⟩
      rw [show cur.reverse ++ c :: cs = (c :: cur).reverse ++ cs from by simp, hd]
    case isFalse hm =>
      split at h
      case isTrue hc =>
        have hcur : cur = [] := by
          cases cur with
          | nil => rfl
          | cons a as => simp at hc
        subst hcur
        obtain ⟨hne, s, t, hd⟩ := ih [] r h
        simp only [List.reverse_nil, List.nil_append] at hd
        exact ⟨hne, c :: s, t, by simp [hd]⟩
      case isFalse hc =>
        rcases List.mem_cons.mp h with rfl | h2
        · refine ⟨?_, [], c :: cs, by simp⟩
          intro hrev
          rw [List.reverse_eq_nil_iff] at hrev
          subst hrev
          simp at hc
        · obtain ⟨hne, s, t, hd⟩ := ih [] r h2
          simp only [List.reverse_nil, List.nil_append] at hd
          exact ⟨hne, cur.reverse ++ c :: s, t, by simp [hd]⟩

/-- Claim C3: every span the tokenizer produces is non-empty, occurs as a
contiguous substring of the input text, and is not equal to any member of
the particle set. -/
theorem tokenCandidates_sound (text r : List Char) (h : r ∈ tokenCandidates text) :
    r ≠ [] ∧ (∃ s t, text = s ++ r ++ t) ∧ r ∉ particles := by
  unfold tokenCandidates at h
  rw [List.mem_filter] at h
  obtain ⟨hmem, hpred⟩ := h
  obtain ⟨hne, s, t, hd⟩ := extractRunsAux_mem text [] r (by simpa [extractRuns] using hmem)
  simp only [List.reverse_nil, List.nil_append] at hd
  refine ⟨hne, ⟨s, t, hd⟩, ?_⟩
  simp only [Bool.and_eq_true, Bool.not_eq_true', decide_eq_false_iff_not,
    decide_eq_true_eq] at hpred
  exact hpred.1

theorem tokenCandidates_sound_witness :
    (("猫".toList) ∈ tokenCandidates ("猫が好きです。".toList))
    ∧ (("猫".toList) ≠ []
        ∧ (∃ s t, ("猫が好きです。".toList) = s ++ ("猫".toList) ++ t)
        ∧ ("猫".toList) ∉ particles) :=
  ⟨by decide, tokenCandidates_sound ("猫が好きです。".toList) ("猫".toList) (by decide)⟩

theorem extractRunsAux_nil_of_no_class (text : List Char)
    (h : ∀ c ∈ text, meaningfulWordChar c = false) : extractRunsAux [] text = [] := by
  induction text with
  | nil => rfl
  | cons c cs ih =>
    have hc := h c (List.mem_cons_self c cs)
    simp only [extractRunsAux, hc, Bool.false_eq_true, if_false, List.isEmpty_nil, if_true]
    exact ih (fun d hd => h d (List.mem_cons_of_mem c hd))

/-- Claim C10: for every input text all of whose characters lie outside the
character class of `meaningfulWordRegex` (whose hiragana range only starts
at ひ, U+3072), the tokenizer yields no candidates and `makeWordsClickable`
returns the text unchanged except for newline-to-`<br>` conversion. -/
theorem makeWordsClickable_no_class_chars (text : List Char)
    (h : ∀ c ∈ text, meaningfulWordChar c = false) :
    tokenCandidates text = [] ∧ makeWordsClickable text = newlineToBr text := by
  have hruns : extractRuns text = [] := extractRunsAux_nil_of_no_class text h
  have hcand : tokenCandidates text = [] := by
    simp [tokenCandidates, hruns]
  exact ⟨hcand, by simp [makeWordsClickable, annotateWords, hcand, dedupFirst, sortLenDesc]⟩

theorem makeWordsClickable_no_class_chars_witness :
    (∀ c ∈ ("あか\nです。".toList), meaningfulWordChar c = false)
    ∧ (tokenCandidates ("あか\nです。".toList) = []
        ∧ makeWordsClickable ("あか\nです。".toList) = newlineToBr ("あか\nです。".toList)) :=
  ⟨by decide, makeWordsClickable_no_class_chars ("あか\nです。".toList) (by decide)⟩

set_option maxRecDepth 20000 in
/-- Claim C1 (evaluation at the spec's end-to-end input): on
"猫が好きです。" the pipeline produces the two interactive spans 猫 and 好 —
not 猫 and 好き as the spec requires, because き, で, す and が lie below
U+3072 and are excluded from the character class, so the run 好き is never
formed. -/
theorem makeWordsClickable_neko_eval :
    spanWords (makeWordsClickable ("猫が好きです。".toList)) = ["猫".toList, "好".toList]
    ∧ makeWordsClickable ("猫が好きです。".toList)
      = spanWrap ("猫".toList) ++ "が".toList ++ spanWrap ("好".toList) ++ "きです。".toList := by
  constructor <;> decide

set_option maxRecDepth 20000 in
/-- Claim C4 (evaluation at the stipulated candidates): annotating 東京都
with candidate surface forms 東京 and 京 wraps 東京 first, but the second
pass then independently wraps the 京 inside the first span's text content —
the trailing lookahead only excludes occurrences inside a tag (before its
closing `>`), not occurrences in element text followed by `</span>`. -/
theorem annotateWords_tokyo_eval :
    spanWords (annotateWords ["東京".toList, "京".toList] ("東京都".toList))
      = ["東京".toList, "京".toList]
    ∧ annotateWords ["東京".toList, "京".toList] ("東京都".toList)
      = ("<span class=\"clickable-word\" data-word=\"東京\" data-source=\"dynamic\">東").toList
        ++ spanWrap ("京".toList) ++ ("</span>都").toList := by
  constructor <;> decide

set_option maxRecDepth 20000 in
/-- Claim C5 (evaluation at input 猫): `makeWordsClickable` is not
idempotent — one application of it to 猫 yields one interactive tag, and
re-applying it to its own output yields two, double-wrapping the span's
text content. -/
theorem makeWordsClickable_not_idempotent_eval :
    countTags (makeWordsClickable ("猫".toList)) = 1
    ∧ countTags (makeWordsClickable (makeWordsClickable ("猫".toList))) = 2 := by
  constructor <;> decide
